import Mathlib

/-!
Verification of the filtering/analysis core of wigle_processor.py, a WiGLE
CSV wardriving processor (record parsing, deny-list filter, geofence filter,
creep detector, encryption aggregator, CSV writing and re-reading).

Modelling conventions of this shallow embedding:
* Python floats (latitude/longitude) are modelled as rationals.
* Python str is Lean String; str.upper() is modelled on ASCII letters, the
  alphabet of MAC addresses and the deny-list entries at issue.
* Python sets of strings are modelled as lists with membership tests (the
  deny lists and the seen-network set; dedup is handled at the guards, as
  in the source), except the creep detector location sets, which are
  Finsets so that cardinality models len().
* Python dicts (defaultdict(set), Counter) are association lists in
  insertion order, as iteration order matters to the source.
* A compiled regex is modelled extensionally as a predicate String → Bool
  standing for pattern.search.
* float(s), str(float) and the "%.2f" format are modelled on the finite
  decimal notations the program actually exchanges (optional sign, digits,
  optional point; the exponent, inf/nan, whitespace and underscore forms
  of the Python grammar are outside the model).
* A CSV file is a list of row strings: the physical line terminators and
  the csv module's reassembly of quoted rows spanning physical lines are
  abstracted into the row/line boundary.
-/

namespace Wigle

/-- Python's int() applied to a float truncates toward zero: floor for
nonnegative input, minus the floor of the negation for negative input. -/
def pyInt (q : ℚ) : ℤ := if q < 0 then -⌊-q⌋ else ⌊q⌋

/-- str.upper() on one character, ASCII range (a-z to A-Z). -/
def pyUpperChar (c : Char) : Char :=
  if 97 ≤ c.toNat ∧ c.toNat ≤ 122 then Char.ofNat (c.toNat - 32) else c

/-- str.upper(), modelled on ASCII letters. -/
def pyUpper (s : String) : String := String.mk (s.data.map pyUpperChar)

/-- str.startswith on the underlying character lists. -/
def startsWithChars : List Char → List Char → Bool
  | _, [] => true
  | [], _ :: _ => false
  | c :: cs, p :: ps => c = p && startsWithChars cs ps

/-- Python's substring containment test (pat in s) on character lists. -/
def containsSub (cs pat : List Char) : Bool :=
  startsWithChars cs pat ||
    match cs with
    | [] => false
    | _ :: rest => containsSub rest pat

/-- The numeric value of one ASCII digit character. -/
def digitVal (c : Char) : ℕ := c.toNat - 48

/-- The natural number denoted by a most-significant-first digit string. -/
def natOfDigits (cs : List Char) : ℕ := Nat.ofDigits 10 ((cs.map digitVal).reverse)

/-- The base-10 digit characters of a natural number, most significant
first; empty for 0 (callers pad, and a bare 0 prints as ".0"). -/
def natChars (n : ℕ) : List Char :=
  ((Nat.digits 10 n).map fun d => Char.ofNat (48 + d)).reverse

/-- Left-pad a digit string with zeros up to width k. -/
def leftPad (k : ℕ) (cs : List Char) : List Char :=
  List.replicate (k - cs.length) '0' ++ cs

/-- The sign prefix of a Python float literal: a leading minus or plus is
consumed and contributes the sign factor. -/
def stripSign (cs : List Char) : ℚ × List Char :=
  match cs with
  | [] => (1, [])
  | c :: rest => if c = '-' then (-1, rest) else if c = '+' then (1, rest) else (1, cs)

/-- Python float(s) on finite decimal literals: optional sign, an integer
digit run, optionally a point and a fractional digit run, at least one
digit overall. Everything else (including the exponent, infinity, nan,
whitespace and underscore forms Python also accepts) is outside the model
and maps to none, as do all genuinely non-numeric strings. -/
def pyFloat (s : String) : Option ℚ :=
  match (stripSign s.data).2.dropWhile Char.isDigit with
  | [] =>
    if (stripSign s.data).2.takeWhile Char.isDigit = [] then none
    else some ((stripSign s.data).1 * natOfDigits ((stripSign s.data).2.takeWhile Char.isDigit))
  | c :: rest2 =>
    if c = '.' then
      if rest2.dropWhile Char.isDigit = [] then
        if (stripSign s.data).2.takeWhile Char.isDigit = [] ∧ rest2.takeWhile Char.isDigit = [] then
          none
        else
          some ((stripSign s.data).1 *
            (natOfDigits ((stripSign s.data).2.takeWhile Char.isDigit) +
              natOfDigits (rest2.takeWhile Char.isDigit) /
                10 ^ (rest2.takeWhile Char.isDigit).length))
      else none
    else none

/-- The float(row[6]) if row[6] else 0.0 idiom of the source: an empty
field is falsy and maps to 0.0, a non-empty field goes through float(),
whose ValueError becomes absence. -/
def parseCoord (s : String) : Option ℚ := if s = "" then some 0 else pyFloat s

/-- q has a finite decimal expansion (its reduced denominator divides a
power of ten). Every Python float is such a rational, so every coordinate
the modelled program handles satisfies this. -/
def IsFiniteDecimal (q : ℚ) : Prop := ∃ k : ℕ, (q.den : ℕ) ∣ 10 ^ k

/-- str() of a float, modelled for rationals with a finite decimal
expansion: the exact expansion, sign then integer digits then a point
then at least one fractional digit (Python prints 40.0 rather than 40).
CPython prints the shortest decimal that reparses to the same float; both
renderings reparse to the argument, which is the property in use. A
rational with no finite decimal expansion (never produced by the modelled
program, whose coordinates come from float()) renders as "NaN". -/
def ratStr (q : ℚ) : String :=
  match (List.range (q.den + 1)).find? (fun k => decide (10 ^ k % (q.den : ℕ) = 0)) with
  | some k =>
    String.mk ((if q.num < 0 then ['-'] else []) ++
      natChars ((q.num * (10 : ℤ) ^ k / (q.den : ℤ)).natAbs / 10 ^ k) ++
      '.' :: leftPad (max k 1) (natChars ((q.num * (10 : ℤ) ^ k / (q.den : ℤ)).natAbs % 10 ^ k)))
  | none => "NaN"

/-- class WiGLERecord: one WiGLE CSV record. -/
structure WiGLERecord where
  mac : String
  ssid : String
  auth_mode : String
  first_seen : String
  channel : String
  rssi : String
  latitude : ℚ
  longitude : ℚ
  altitude : String
  accuracy : String
  network_type : String
deriving DecidableEq

/-- WiGLERecord.from_csv_row: the length guard, the lat/lon parses (a
failing float() raises ValueError and the except clause returns None),
then the positional constructor call, including the source's
len(row) > 10 conditional for the network type. -/
def from_csv_row (row : List String) : Option WiGLERecord :=
  if row.length < 11 then none
  else
    match parseCoord (row.getD 6 ""), parseCoord (row.getD 7 "") with
    | some lat, some lon =>
      some { mac := row.getD 0 "", ssid := row.getD 1 "", auth_mode := row.getD 2 "",
             first_seen := row.getD 3 "", channel := row.getD 4 "", rssi := row.getD 5 "",
             latitude := lat, longitude := lon, altitude := row.getD 8 "",
             accuracy := row.getD 9 "",
             network_type := if row.length > 10 then row.getD 10 "" else "WIFI" }
    | _, _ => none

/-- class LocationFilter: the reference coordinate and delta; the four
bounds the constructor stores are the defs below. -/
structure LocationFilter where
  my_lat : ℚ
  my_long : ℚ
  delta : ℚ

def LocationFilter.lat_min (f : LocationFilter) : ℚ := f.my_lat - f.delta

def LocationFilter.lat_max (f : LocationFilter) : ℚ := f.my_lat + f.delta

def LocationFilter.long_min (f : LocationFilter) : ℚ := f.my_long - f.delta

def LocationFilter.long_max (f : LocationFilter) : ℚ := f.my_long + f.delta

/-- LocationFilter.is_here: false on the (0,0) sentinel, otherwise the
inclusive bounding-box test. -/
def is_here (f : LocationFilter) (r : WiGLERecord) : Bool :=
  if r.latitude = 0 ∧ r.longitude = 0 then false
  else decide (f.lat_min ≤ r.latitude ∧ r.latitude ≤ f.lat_max ∧
               f.long_min ≤ r.longitude ∧ r.longitude ≤ f.long_max)

/-- LocationFilter.is_not_here: false on the (0,0) sentinel, otherwise the
negation of is_here. -/
def is_not_here (f : LocationFilter) (r : WiGLERecord) : Bool :=
  if r.latitude = 0 ∧ r.longitude = 0 then false
  else !is_here f r

/-- class FilterConfig: the three deny-list rule sets. load_config stores
the configured MAC and SSID strings verbatim (no case normalisation) and
the compiled patterns in load order; a pattern is modelled extensionally
as its search function. -/
structure FilterConfig where
  blocked_macs : List String
  blocked_ssids : List String
  blocked_patterns : List (String → Bool)

/-- FilterConfig.should_filter: the record's MAC upper-cased against the
blocked-MAC set, then the SSID verbatim against the blocked-SSID set, then
each pattern searched against the SSID and the MAC, first match wins. -/
def should_filter (cfg : FilterConfig) (r : WiGLERecord) : Bool :=
  if pyUpper r.mac ∈ cfg.blocked_macs then true
  else if r.ssid ∈ cfg.blocked_ssids then true
  else cfg.blocked_patterns.any fun p => p r.ssid || p r.mac

/-- Python's "%.2f" f-string format, modelled exactly for the multiples of
1/100 the creep detector formats at the default fudge factor 100: the
value scaled by 100 and rounded, rendered as sign, units, point and a
two-digit fraction. -/
def fmt2 (q : ℚ) : String :=
  (if round (q * 100) < 0 then "-" else "") ++
    toString ((round (q * 100)).natAbs / 100) ++ "." ++
    (if (round (q * 100)).natAbs % 100 < 10 then "0" ++ toString ((round (q * 100)).natAbs % 100)
     else toString ((round (q * 100)).natAbs % 100))

/-- class CreepDetector: the fudge factor and the per-MAC sets of location
fingerprints, in first-seen MAC order (defaultdict insertion order). -/
structure CreepDetector where
  fudge_factor : ℤ
  mac_locations : List (String × Finset String)

/-- The rounded-location fingerprint CreepDetector.add_record computes:
lat = int(latitude*fudge + 0.5)/fudge, lon = int(longitude*fudge - 0.5)/fudge,
each formatted to two decimals and joined by a space. -/
def fingerprint (F : ℤ) (lat lon : ℚ) : String :=
  fmt2 ((pyInt (lat * F + 1/2) : ℚ) / F) ++ " " ++ fmt2 ((pyInt (lon * F - 1/2) : ℚ) / F)

/-- The fingerprint as the SPEC's sentences describe it: floor-based
rounding, roundedLat = floor(lat*F + 0.5)/F and roundedLon =
floor(lon*F - 0.5)/F, two decimals each, joined by a space. Compare
fingerprint above, which models the code's int() truncation toward
zero. -/
def specFingerprint (F : ℤ) (lat lon : ℚ) : String :=
  fmt2 ((⌊lat * F + 1/2⌋ : ℚ) / F) ++ " " ++ fmt2 ((⌊lon * F - 1/2⌋ : ℚ) / F)

/-- defaultdict(set) update: add fp to the set at key, appending a fresh
singleton entry when the key is absent. -/
def updateAssoc (m : List (String × Finset String)) (key fp : String) :
    List (String × Finset String) :=
  match m with
  | [] => [(key, {fp})]
  | (k, s) :: rest =>
    if k = key then (k, insert fp s) :: rest else (k, s) :: updateAssoc rest key fp

/-- defaultdict(set) lookup: the set at key, empty when absent. -/
def getLocs (m : List (String × Finset String)) (key : String) : Finset String :=
  match m with
  | [] => ∅
  | (k, s) :: rest => if k = key then s else getLocs rest key

/-- CreepDetector.add_record: drop the (0,0) sentinel, otherwise insert
the rounded fingerprint into the record MAC's location set. -/
def add_record (d : CreepDetector) (r : WiGLERecord) : CreepDetector :=
  if r.latitude = 0 ∧ r.longitude = 0 then d
  else { d with mac_locations :=
          updateAssoc d.mac_locations r.mac (fingerprint d.fudge_factor r.latitude r.longitude) }

/-- The descending composite-key comparison of
sorted(results, reverse=True) on (count, mac) pairs: b may follow a in the
output exactly when b ≤ a in the lexicographic product order (count first,
then the MAC string compared by code points, Python's tuple and str
orders). -/
def tupleGe (a b : ℕ × String) : Bool := decide (toLex b ≤ toLex a)

/-- CreepDetector.get_multi_location_devices: the (len(locations), mac)
pairs of the MACs with at least min_locations fingerprints, sorted
descending by the composite key. -/
def get_multi_location_devices (d : CreepDetector) (min_locations : ℕ) : List (ℕ × String) :=
  (d.mac_locations.filterMap fun p =>
    if min_locations ≤ p.2.card then some (p.2.card, p.1) else none).mergeSort tupleGe

/-- class EncryptionAnalyzer: the per-auth-mode Counter (association list
in insertion order) and the seen network identity keys. -/
structure EncryptionAnalyzer where
  encryption_counts : List (String × ℕ)
  unique_networks : List String

/-- Counter increment: counts[key] += 1, a missing key starting at 0 and
entering at the end (dict insertion order). -/
def bump (m : List (String × ℕ)) (key : String) : List (String × ℕ) :=
  match m with
  | [] => [(key, 1)]
  | (k, c) :: rest => if k = key then (k, c + 1) :: rest else (k, c) :: bump rest key

/-- EncryptionAnalyzer.add_record: the "{mac} {ssid}" identity key; a seen
key is a no-op, a new key is recorded and its auth mode counted. -/
def EncryptionAnalyzer.add_record (a : EncryptionAnalyzer) (r : WiGLERecord) :
    EncryptionAnalyzer :=
  if (r.mac ++ " " ++ r.ssid) ∈ a.unique_networks then a
  else { encryption_counts := bump a.encryption_counts r.auth_mode,
         unique_networks := a.unique_networks ++ [r.mac ++ " " ++ r.ssid] }

/-- One entry of the statistics mapping EncryptionAnalyzer.get_stats
returns for an auth mode. -/
structure EncStat where
  count : ℕ
  percentage : ℚ
  total : ℕ
deriving DecidableEq

/-- sum(self.encryption_counts.values()). -/
def countTotal (a : EncryptionAnalyzer) : ℕ := (a.encryption_counts.map Prod.snd).sum

/-- EncryptionAnalyzer.get_stats: empty when the total is zero, otherwise
each counted auth mode with its count, percentage (count/total)*100 and
the shared total. -/
def get_stats (a : EncryptionAnalyzer) : List (String × EncStat) :=
  if countTotal a = 0 then []
  else a.encryption_counts.map fun p =>
    (p.1, { count := p.2, percentage := ((p.2 : ℚ) / countTotal a) * 100, total := countTotal a })

/-- csv.writer QUOTE_MINIMAL: a field is quoted when it contains the
delimiter, the quote character or a line-terminator character. -/
def needsQuote (cs : List Char) : Bool :=
  cs.any fun c => c = ',' || c = '"' || c = '\n' || c = '\r'

/-- csv doubling of embedded quote characters inside a quoted field. -/
def escQ : List Char → List Char
  | [] => []
  | c :: rest => if c = '"' then '"' :: '"' :: escQ rest else c :: escQ rest

/-- csv.writer rendering of one field. -/
def writeField (s : String) : String :=
  if needsQuote s.data then String.mk ('"' :: (escQ s.data ++ ['"'])) else s

/-- csv.writer rendering of one row: the fields joined by the comma
delimiter. -/
def writeRow : List String → String
  | [] => ""
  | [f] => writeField f
  | f :: fs => writeField f ++ "," ++ writeRow fs

/-- The states of the csv.reader field scanner: at the start of a field,
in an unquoted field, or inside a quoted field (the character after a
closing quote is dispatched where the quote is consumed). -/
inductive CsvState where
  | fieldStart
  | unquoted
  | quoted
deriving DecidableEq

/-- csv.reader splitting of one row into fields: a quote opens a quoted
field only at field start, a doubled quote inside a quoted field stands
for a literal one, the delimiter ends a field outside quotes. -/
def splitRow (cur : List Char) (st : CsvState) : List Char → List String
  | [] => [String.mk cur]
  | c :: rest =>
    match st with
    | .fieldStart =>
      if c = '"' then splitRow cur .quoted rest
      else if c = ',' then String.mk cur :: splitRow [] .fieldStart rest
      else splitRow (cur ++ [c]) .unquoted rest
    | .unquoted =>
      if c = ',' then String.mk cur :: splitRow [] .fieldStart rest
      else splitRow (cur ++ [c]) .unquoted rest
    | .quoted =>
      if c = '"' then
        match rest with
        | [] => [String.mk cur]
        | c2 :: rest2 =>
          if c2 = '"' then splitRow (cur ++ ['"']) .quoted rest2
          else if c2 = ',' then String.mk cur :: splitRow [] .fieldStart rest2
          else splitRow (cur ++ [c2]) .unquoted rest2
      else splitRow (cur ++ [c]) .quoted rest

/-- csv.reader on one line: a blank line yields the empty row. -/
def parseRow (s : String) : List String :=
  if s.data = [] then [] else splitRow [] .fieldStart s.data

/-- The first header line write_csv_file emits. -/
def headerLine1 : String := "WiGLE.net Python Processor"

/-- The WiGLE column header line write_csv_file emits. -/
def headerLine2 : String :=
  "MAC,SSID,AuthMode,FirstSeen,Channel,RSSI,CurrentLatitude,CurrentLongitude,AltitudeMeters,AccuracyMeters,Type"

/-- The csv.writer row for one record in write_csv_file's fixed field
order, the coordinates rendered through str(). -/
def recordRow (r : WiGLERecord) : String :=
  writeRow [r.mac, r.ssid, r.auth_mode, r.first_seen, r.channel, r.rssi,
            ratStr r.latitude, ratStr r.longitude, r.altitude, r.accuracy, r.network_type]

/-- WiGLEProcessor.write_csv_file as the list of lines written: the two
headers then one row per record. -/
def write_csv_file (records : List WiGLERecord) : List String :=
  headerLine1 :: headerLine2 :: records.map recordRow

/-- The header test of WiGLEProcessor.read_csv_file:
line.startswith('MAC,SSID') or 'MAC' in line and 'SSID' in line. -/
def isHeaderLine (line : String) : Bool :=
  startsWithChars line.data "MAC,SSID".data ||
    (containsSub line.data "MAC".data && containsSub line.data "SSID".data)

/-- The header scan of read_csv_file: data_start becomes i+1 at the first
header line and stays 0 when none is found. -/
def dataStartAux (i : ℕ) : List String → ℕ
  | [] => 0
  | line :: rest => if isHeaderLine line then i + 1 else dataStartAux (i + 1) rest

def dataStart (lines : List String) : ℕ := dataStartAux 0 lines

/-- WiGLEProcessor.read_csv_file on a list of lines: skip to past the
header, split each line into CSV fields, skip empty and short rows, parse
the rest, keep the successes. -/
def read_csv_file (lines : List String) : List WiGLERecord :=
  ((lines.drop (dataStart lines)).map parseRow).filterMap fun row =>
    if row.length < 11 then none else from_csv_row row

/-- The five fields the round-trip property tracks. -/
def keyFields (r : WiGLERecord) : String × String × String × ℚ × ℚ :=
  (r.mac, r.ssid, r.auth_mode, r.latitude, r.longitude)

/-- A concrete record at (40, -74), used for the creep-detector claims. -/
def recC1 : WiGLERecord :=
  ⟨"AA:BB:CC:DD:EE:02", "HomeWifi", "WPA2", "2023-01-01", "6", "-50", 40, -74, "10", "5", "WIFI"⟩

/-- A deny-list with the lower-case MAC entry of the source's own sample
configuration. -/
def cfgC2 : FilterConfig := ⟨["aa:bb:cc:dd:ee:ff"], [], []⟩

/-- A record whose MAC equals that lower-case entry letter for letter. -/
def recC2 : WiGLERecord :=
  ⟨"aa:bb:cc:dd:ee:ff", "HomeWifi", "WPA2", "2023-01-01", "6", "-50", 1, 2, "10", "5", "WIFI"⟩

/-- A deny-list whose MAC entry is upper-case. -/
def cfgC2W : FilterConfig := ⟨["AA:BB:CC:DD:EE:FF"], [], []⟩

/-- A smaller and a larger deny-list and a record the smaller one already
filters, for the monotonicity witness. -/
def cfgC7a : FilterConfig := ⟨[], ["netA"], []⟩

def cfgC7b : FilterConfig := ⟨["AA:BB:CC:DD:EE:FF"], ["netA", "netB"], []⟩

def recC7 : WiGLERecord :=
  ⟨"00:11:22:33:44:55", "netA", "WPA2", "2023-01-01", "6", "-50", 1, 2, "10", "5", "WIFI"⟩

/-- A concrete record for the creep idempotence witness. -/
def recC8 : WiGLERecord :=
  ⟨"CC:DD:EE:FF:00:11", "CoffeeShop", "WPA2", "2023-01-01", "6", "-50", 40, -74, "10", "5", "WIFI"⟩

/-- A parsed row with empty coordinate fields and a distinctive network
type, for the network-type witness. -/
def rowC10 : List String :=
  ["m", "s", "a", "f", "c", "r", "", "", "al", "ac", "TYPE10"]

def recC10 : WiGLERecord := ⟨"m", "s", "a", "f", "c", "r", 0, 0, "al", "ac", "TYPE10"⟩

/-- A concrete record with integer coordinates for the round-trip
witness. -/
def recC6 : WiGLERecord :=
  ⟨"AA:BB", "with,comma \"q\"", "WPA2", "2023-01-01", "6", "-50", 40, -74, "al", "ac", "WIFI"⟩

/-! ## Theorems -/

/-- should_filter succeeds exactly on one of the three rule hits. -/
theorem should_filter_iff (cfg : FilterConfig) (r : WiGLERecord) :
    should_filter cfg r = true ↔
      pyUpper r.mac ∈ cfg.blocked_macs ∨ r.ssid ∈ cfg.blocked_ssids ∨
        ∃ p ∈ cfg.blocked_patterns, (p r.ssid || p r.mac) = true := by
  unfold should_filter
  split_ifs with h1 h2
  · simp [h1]
  · simp [h1, h2]
  · simp [h1, h2, List.any_eq_true]

/-- C3: geofence sentinel policy: on a record at the (0,0) sentinel both
is_here and is_not_here are false; on every other record is_not_here is
the boolean negation of is_here. -/
theorem geofence_sentinel_policy (f : LocationFilter) (r : WiGLERecord) :
    (r.latitude = 0 ∧ r.longitude = 0 → is_here f r = false ∧ is_not_here f r = false) ∧
    (¬(r.latitude = 0 ∧ r.longitude = 0) → is_not_here f r = !is_here f r) := by
  constructor
  · intro h
    simp [is_here, is_not_here, h]
  · intro h
    simp [is_not_here, h]

/-- C2 counterexample: with the blocked-MAC entry "aa:bb:cc:dd:ee:ff"
(the source's own sample configuration writes this entry) and a record
carrying exactly that MAC, both sides upper-case to the same string, yet
should_filter returns false: the code upper-cases only the record side
and compares it with the stored entry verbatim. -/
theorem deny_mac_case_cex :
    pyUpper recC2.mac = pyUpper "aa:bb:cc:dd:ee:ff" ∧
    "aa:bb:cc:dd:ee:ff" ∈ cfgC2.blocked_macs ∧
    should_filter cfgC2 recC2 = false := by
  refine ⟨rfl, by decide, by decide⟩

/-- C2 (amended): deny-list MAC matching is case-insensitive in the record
MAC whenever the configured entry is upper-case (as the spec's data model
stipulates): if some blocked-MAC entry is fixed by upper-casing and the
record's MAC upper-cases to it, should_filter returns true. The code
upper-cases only the record side, so entries containing lower-case letters
are unmatchable. -/
theorem deny_mac_case_insensitive (cfg : FilterConfig) (r : WiGLERecord) (e : String)
    (he : e ∈ cfg.blocked_macs) (hupper : pyUpper e = e)
    (hmatch : pyUpper r.mac = pyUpper e) :
    should_filter cfg r = true := by
  rw [should_filter_iff]
  rw [hupper] at hmatch
  exact Or.inl (hmatch ▸ he)

theorem deny_mac_case_insensitive_witness :
    "AA:BB:CC:DD:EE:FF" ∈ cfgC2W.blocked_macs ∧
    pyUpper "AA:BB:CC:DD:EE:FF" = "AA:BB:CC:DD:EE:FF" ∧
    pyUpper recC2.mac = pyUpper "AA:BB:CC:DD:EE:FF" ∧
    should_filter cfgC2W recC2 = true :=
  ⟨by decide, by decide, by decide,
    deny_mac_case_insensitive cfgC2W recC2 "AA:BB:CC:DD:EE:FF" (by decide) (by decide) (by decide)⟩

/-- C7: deny-list monotonicity: enlarging any of the three rule sets (in
particular adding one entry to any of them) preserves every positive
should_filter verdict. -/
theorem deny_list_monotone (cfg cfg' : FilterConfig) (r : WiGLERecord)
    (hm : ∀ x ∈ cfg.blocked_macs, x ∈ cfg'.blocked_macs)
    (hs : ∀ x ∈ cfg.blocked_ssids, x ∈ cfg'.blocked_ssids)
    (hp : ∀ p ∈ cfg.blocked_patterns, p ∈ cfg'.blocked_patterns)
    (h : should_filter cfg r = true) :
    should_filter cfg' r = true := by
  rw [should_filter_iff] at h ⊢
  rcases h with h | h | ⟨p, hpmem, hpv⟩
  · exact Or.inl (hm _ h)
  · exact Or.inr (Or.inl (hs _ h))
  · exact Or.inr (Or.inr ⟨p, hp _ hpmem, hpv⟩)

theorem deny_list_monotone_witness :
    (∀ x ∈ cfgC7a.blocked_macs, x ∈ cfgC7b.blocked_macs) ∧
    (∀ x ∈ cfgC7a.blocked_ssids, x ∈ cfgC7b.blocked_ssids) ∧
    should_filter cfgC7a recC7 = true ∧
    should_filter cfgC7b recC7 = true :=
  ⟨by decide, by decide, by decide,
    deny_list_monotone cfgC7a cfgC7b recC7 (by decide) (by decide) (by simp [cfgC7a]) (by decide)⟩

/-- C9: the encryption aggregator ignores a record whose (mac, ssid)
identity key was already seen (the whole state, in particular every
auth-mode count, is unchanged); get_stats is empty exactly at total 0 and
otherwise lists each counted auth mode with its count, percentage
100*count/total and the shared total. -/
theorem encryption_aggregator_spec (a : EncryptionAnalyzer) (r : WiGLERecord) :
    ((r.mac ++ " " ++ r.ssid) ∈ a.unique_networks → EncryptionAnalyzer.add_record a r = a) ∧
    (countTotal a = 0 → get_stats a = []) ∧
    (countTotal a ≠ 0 → get_stats a =
      a.encryption_counts.map fun p =>
        (p.1, ⟨p.2, 100 * (p.2 : ℚ) / countTotal a, countTotal a⟩)) := by
  refine ⟨fun h => ?_, fun h => ?_, fun h => ?_⟩
  · simp [EncryptionAnalyzer.add_record, h]
  · simp [get_stats, h]
  · rw [get_stats, if_neg h]
    refine List.map_congr_left fun p _ => ?_
    have hp : ((p.2 : ℚ) / countTotal a) * 100 = 100 * (p.2 : ℚ) / countTotal a := by ring
    rw [hp]

/-- Feeding records with one fixed (mac, lat, lon) into a detector that
already holds exactly that one fingerprint changes nothing. -/
theorem foldl_add_record_const (F : ℤ) (mac : String) (lat lon : ℚ)
    (hs : ¬(lat = 0 ∧ lon = 0)) (rest : List WiGLERecord)
    (hall : ∀ r ∈ rest, r.mac = mac ∧ r.latitude = lat ∧ r.longitude = lon) :
    rest.foldl add_record ⟨F, [(mac, {fingerprint F lat lon})]⟩ =
      ⟨F, [(mac, {fingerprint F lat lon})]⟩ := by
  induction rest with
  | nil => rfl
  | cons r rs ih =>
    obtain ⟨h1, h2, h3⟩ := hall r (by simp)
    have step : add_record ⟨F, [(mac, {fingerprint F lat lon})]⟩ r =
        ⟨F, [(mac, {fingerprint F lat lon})]⟩ := by
      rw [add_record, if_neg (by rw [h2, h3]; exact hs)]
      simp [h1, h2, h3, updateAssoc, Finset.insert_eq_self.mpr (Finset.mem_singleton_self _)]
    rw [List.foldl_cons, step]
    exact ih fun r hr => hall r (by simp [hr])

/-- C8: creep idempotence on duplicates: from a fresh detector, N ≥ 1
records carrying one fixed non-sentinel (mac, lat, lon) leave exactly the
state one such record leaves: the one MAC holding the one fingerprint. -/
theorem creep_idempotent (F : ℤ) (mac : String) (lat lon : ℚ) (N : ℕ)
    (recs : List WiGLERecord) (hs : ¬(lat = 0 ∧ lon = 0)) (hN : 1 ≤ N)
    (hlen : recs.length = N)
    (hall : ∀ r ∈ recs, r.mac = mac ∧ r.latitude = lat ∧ r.longitude = lon) :
    (recs.foldl add_record ⟨F, []⟩).mac_locations = [(mac, {fingerprint F lat lon})] ∧
    (getLocs (recs.foldl add_record ⟨F, []⟩).mac_locations mac).card = 1 := by
  match recs, hlen with
  | [], hlen => simp at hlen; omega
  | r :: rs, hlen =>
    obtain ⟨h1, h2, h3⟩ := hall r (by simp)
    have step : add_record ⟨F, []⟩ r = ⟨F, [(mac, {fingerprint F lat lon})]⟩ := by
      rw [add_record, if_neg (by rw [h2, h3]; exact hs)]
      simp [h1, h2, h3, updateAssoc]
    rw [List.foldl_cons, step,
      foldl_add_record_const F mac lat lon hs rs fun r hr => hall r (by simp [hr])]
    exact ⟨rfl, by simp [getLocs]⟩

theorem creep_idempotent_witness :
    ¬((40 : ℚ) = 0 ∧ (-74 : ℚ) = 0) ∧
    ([recC8, recC8, recC8].foldl add_record ⟨100, []⟩).mac_locations =
      [("CC:DD:EE:FF:00:11", {fingerprint 100 40 (-74)})] := by
  have hs : ¬((40 : ℚ) = 0 ∧ (-74 : ℚ) = 0) := by norm_num
  refine ⟨hs, (creep_idempotent 100 "CC:DD:EE:FF:00:11" 40 (-74) 3 [recC8, recC8, recC8]
    hs (by norm_num) rfl ?_).1⟩
  intro r hr
  simp only [List.mem_cons, List.not_mem_nil, or_false] at hr
  rcases hr with h | h | h <;> subst h <;> exact ⟨rfl, rfl, rfl⟩

/-- C10: whenever from_csv_row yields a record, the row passed the
11-field guard, so the len(row) > 10 test in the constructor call is
already true and the record's network type is the row's 11th field
verbatim: the "WIFI" default is unreachable. -/
theorem network_type_default_unreachable (row : List String) (rec : WiGLERecord)
    (h : from_csv_row row = some rec) :
    11 ≤ row.length ∧ rec.network_type = row.getD 10 "" := by
  by_cases hlen : row.length < 11
  · rw [from_csv_row, if_pos hlen] at h
    exact absurd h (by simp)
  · rw [from_csv_row, if_neg hlen] at h
    refine ⟨by omega, ?_⟩
    split at h
    · injection h with h2
      rw [← h2]
      simp only []
      rw [if_pos (by omega)]
    · exact absurd h (by simp)

theorem network_type_default_unreachable_witness :
    from_csv_row rowC10 = some recC10 ∧
    11 ≤ rowC10.length ∧ recC10.network_type = rowC10.getD 10 "" := by
  have h : from_csv_row rowC10 = some recC10 := by rfl
  exact ⟨h, network_type_default_unreachable rowC10 recC10 h⟩

/-- C5: the record parser's contract: a row of fewer than 11 fields
parses to none (absence, not an exception); with 11 or more fields a
non-empty, non-numeric latitude or longitude field parses to none; an
empty coordinate field stands for 0.0; and when both coordinates parse
the record is built positionally from the row. -/
theorem from_csv_row_contract (row : List String) :
    (row.length < 11 → from_csv_row row = none) ∧
    (11 ≤ row.length →
      (((row.getD 6 "" ≠ "" ∧ pyFloat (row.getD 6 "") = none) ∨
        (row.getD 7 "" ≠ "" ∧ pyFloat (row.getD 7 "") = none)) →
          from_csv_row row = none)) ∧
    parseCoord "" = some 0 ∧
    (∀ lat lon : ℚ, 11 ≤ row.length →
      parseCoord (row.getD 6 "") = some lat → parseCoord (row.getD 7 "") = some lon →
      from_csv_row row = some ⟨row.getD 0 "", row.getD 1 "", row.getD 2 "", row.getD 3 "",
        row.getD 4 "", row.getD 5 "", lat, lon, row.getD 8 "", row.getD 9 "",
        row.getD 10 ""⟩) := by
  refine ⟨fun h => by rw [from_csv_row, if_pos h], fun hlen h => ?_, rfl, fun lat lon hlen h6 h7 => ?_⟩
  · rw [from_csv_row, if_neg (by omega)]
    rcases h with ⟨hne, hnone⟩ | ⟨hne, hnone⟩
    · rw [parseCoord, if_neg hne, hnone]
    · rcases hp : parseCoord (row.getD 6 "") with _ | v
      · rfl
      · rw [parseCoord, if_neg hne, hnone]
  · rw [from_csv_row, if_neg (by omega), h6, h7, if_pos (show row.length > 10 by omega)]

/-- fmt2 on an exact multiple of 1/100 renders its integer numerator in
hundredths. -/
theorem fmt2_cent (n : ℤ) :
    fmt2 ((n : ℚ) / 100) =
      (if n < 0 then "-" else "") ++ toString (n.natAbs / 100) ++ "." ++
        (if n.natAbs % 100 < 10 then "0" ++ toString (n.natAbs % 100)
         else toString (n.natAbs % 100)) := by
  have h : ((n : ℚ) / 100) * 100 = (n : ℚ) := div_mul_cancel₀ _ (by norm_num)
  rw [fmt2, h, round_intCast]

/-- The code's fingerprint at (40, -74), fudge 100: int() truncates
-7400.5 toward zero to -7400. -/
theorem fingerprint_concrete : fingerprint 100 40 (-74) = "40.00 -74.00" := by
  have h1 : pyInt ((40 : ℚ) * ((100 : ℤ) : ℚ) + 1 / 2) = 4000 := by
    rw [pyInt, if_neg (by norm_num)]
    norm_num
  have h2 : pyInt ((-74 : ℚ) * ((100 : ℤ) : ℚ) - 1 / 2) = -7400 := by
    rw [pyInt, if_pos (by norm_num)]
    norm_num
  rw [fingerprint, h1, h2, show ((100 : ℤ) : ℚ) = 100 from by norm_num, fmt2_cent, fmt2_cent]
  decide

/-- The spec's floor-based fingerprint at (40, -74), fudge 100: floor
takes -7400.5 down to -7401. -/
theorem specFingerprint_concrete : specFingerprint 100 40 (-74) = "40.00 -74.01" := by
  have h1 : (⌊(40 : ℚ) * ((100 : ℤ) : ℚ) + 1 / 2⌋ : ℤ) = 4000 := by norm_num
  have h2 : (⌊(-74 : ℚ) * ((100 : ℤ) : ℚ) - 1 / 2⌋ : ℤ) = -7401 := by norm_num
  rw [specFingerprint, h1, h2, show ((100 : ℤ) : ℚ) = 100 from by norm_num, fmt2_cent, fmt2_cent]
  decide

/-- Inserting through the defaultdict update adds the fingerprint to the
keyed set. -/
theorem getLocs_updateAssoc (m : List (String × Finset String)) (key fp : String) :
    getLocs (updateAssoc m key fp) key = insert fp (getLocs m key) := by
  induction m with
  | nil => simp [updateAssoc, getLocs]
  | cons p rest ih =>
    obtain ⟨k, s⟩ := p
    by_cases h : k = key <;> simp [updateAssoc, getLocs, h, ih]

/-- C1 (amended): on a non-sentinel record, add_record inserts into the
record MAC's fingerprint set the string built from
roundedLat = trunc(lat*F + 0.5)/F and roundedLon = trunc(lon*F - 0.5)/F —
trunc being Python int()'s truncation toward zero, not floor — each
formatted to two decimal places and joined by a space (F the detector's
fudge factor, default 100). -/
theorem creep_fingerprint_rounding (d : CreepDetector) (r : WiGLERecord)
    (hs : ¬(r.latitude = 0 ∧ r.longitude = 0)) :
    getLocs (add_record d r).mac_locations r.mac =
      insert (fmt2 ((pyInt (r.latitude * d.fudge_factor + 1 / 2) : ℚ) / d.fudge_factor) ++ " " ++
              fmt2 ((pyInt (r.longitude * d.fudge_factor - 1 / 2) : ℚ) / d.fudge_factor))
        (getLocs d.mac_locations r.mac) := by
  rw [add_record, if_neg hs]
  exact getLocs_updateAssoc d.mac_locations r.mac _

theorem creep_fingerprint_rounding_witness :
    ¬(recC1.latitude = 0 ∧ recC1.longitude = 0) ∧
    getLocs (add_record ⟨100, []⟩ recC1).mac_locations recC1.mac =
      insert (fmt2 ((pyInt (recC1.latitude * (100 : ℤ) + 1 / 2) : ℚ) / (100 : ℤ)) ++ " " ++
              fmt2 ((pyInt (recC1.longitude * (100 : ℤ) - 1 / 2) : ℚ) / (100 : ℤ)))
        (getLocs ([] : List (String × Finset String)) recC1.mac) := by
  have hs : ¬(recC1.latitude = 0 ∧ recC1.longitude = 0) := by norm_num [recC1]
  exact ⟨hs, creep_fingerprint_rounding ⟨100, []⟩ recC1 hs⟩

/-- C1 counterexample: at (40, -74) with the default fudge factor 100 the
code inserts "40.00 -74.00" (int() truncates -7400.5 toward zero), while
the claim's floor formula yields "40.00 -74.01"; the floor-based
fingerprint is not in the MAC's set after add_record. -/
theorem creep_fingerprint_floor_cex :
    getLocs (add_record ⟨100, []⟩ recC1).mac_locations recC1.mac = {"40.00 -74.00"} ∧
    specFingerprint 100 recC1.latitude recC1.longitude = "40.00 -74.01" ∧
    specFingerprint 100 recC1.latitude recC1.longitude ∉
      getLocs (add_record ⟨100, []⟩ recC1).mac_locations recC1.mac := by
  have h1 : getLocs (add_record ⟨100, []⟩ recC1).mac_locations recC1.mac = {"40.00 -74.00"} := by
    rw [add_record, if_neg (by norm_num [recC1])]
    show getLocs (updateAssoc [] recC1.mac (fingerprint 100 recC1.latitude recC1.longitude))
      recC1.mac = _
    rw [show fingerprint 100 recC1.latitude recC1.longitude = "40.00 -74.00" from
      fingerprint_concrete]
    simp [updateAssoc, getLocs]
  have h2 : specFingerprint 100 recC1.latitude recC1.longitude = "40.00 -74.01" :=
    specFingerprint_concrete
  refine ⟨h1, h2, ?_⟩
  rw [h1, h2]
  decide

/-- C4: get_multi_location_devices returns exactly the (set size, mac)
pairs of the MACs holding at least min_locations fingerprints (as a
permutation of that selection), and the output is non-increasing in the
count with ties non-increasing in the MAC string. -/
theorem creep_ranking (d : CreepDetector) (min_locations : ℕ) :
    (get_multi_location_devices d min_locations).Perm
      (d.mac_locations.filterMap fun p =>
        if min_locations ≤ p.2.card then some (p.2.card, p.1) else none) ∧
    (get_multi_location_devices d min_locations).Pairwise
      fun a b => b.1 ≤ a.1 ∧ (b.1 = a.1 → b.2 ≤ a.2) := by
  constructor
  · exact List.mergeSort_perm _ _
  · have htrans : ∀ a b c : ℕ × String,
        tupleGe a b = true → tupleGe b c = true → tupleGe a c = true := by
      intro a b c hab hbc
      simp only [tupleGe, decide_eq_true_eq] at hab hbc ⊢
      exact le_trans hbc hab
    have htot : ∀ a b : ℕ × String, (tupleGe a b || tupleGe b a) = true := by
      intro a b
      simp only [tupleGe, Bool.or_eq_true, decide_eq_true_eq]
      exact le_total (toLex b) (toLex a)
    have hp := List.sorted_mergeSort htrans htot
      (d.mac_locations.filterMap fun p =>
        if min_locations ≤ p.2.card then some (p.2.card, p.1) else none)
    refine hp.imp ?_
    intro a b hab
    simp only [tupleGe, decide_eq_true_eq] at hab
    rcases (Prod.Lex.le_iff b a).mp hab with hlt | ⟨heq, hle⟩
    · exact ⟨le_of_lt hlt, fun he => absurd he (ne_of_lt hlt)⟩
    · exact ⟨le_of_eq heq, fun _ => hle⟩

/-- A base-10 digit renders to a digit character that reads back to
itself. -/
theorem digit_char_spec (d : ℕ) (hd : d < 10) :
    (Char.ofNat (48 + d)).isDigit = true ∧ digitVal (Char.ofNat (48 + d)) = d := by
  interval_cases d <;> exact ⟨by decide, by decide⟩

theorem natChars_isDigit (n : ℕ) : ∀ c ∈ natChars n, c.isDigit = true := by
  intro c hc
  simp only [natChars, List.mem_reverse, List.mem_map] at hc
  obtain ⟨d, hd, rfl⟩ := hc
  exact (digit_char_spec d (Nat.digits_lt_base (by norm_num) hd)).1

theorem natOfDigits_natChars (n : ℕ) : natOfDigits (natChars n) = n := by
  unfold natOfDigits natChars
  rw [List.map_reverse, List.reverse_reverse, List.map_map]
  have h : (Nat.digits 10 n).map (digitVal ∘ fun d => Char.ofNat (48 + d)) = Nat.digits 10 n := by
    conv_rhs => rw [← List.map_id (Nat.digits 10 n)]
    refine List.map_congr_left fun d hd => ?_
    simp only [Function.comp_apply, id_eq]
    exact (digit_char_spec d (Nat.digits_lt_base (by norm_num) hd)).2
  rw [h, Nat.ofDigits_digits]

theorem ofDigits_replicate_zero (m : ℕ) : Nat.ofDigits 10 (List.replicate m 0) = 0 := by
  induction m with
  | zero => rfl
  | succ j ih => simp [List.replicate_succ, Nat.ofDigits_cons, ih]

theorem natOfDigits_leftPad (k : ℕ) (cs : List Char) :
    natOfDigits (leftPad k cs) = natOfDigits cs := by
  unfold natOfDigits leftPad
  rw [List.map_append, List.reverse_append]
  have hrep : (List.replicate (k - cs.length) '0').map digitVal =
      List.replicate (k - cs.length) 0 := by
    rw [List.map_replicate]
    rfl
  rw [hrep, List.reverse_replicate, Nat.ofDigits_append, ofDigits_replicate_zero, mul_zero,
    add_zero]

theorem leftPad_isDigit (k : ℕ) (cs : List Char) (h : ∀ c ∈ cs, c.isDigit = true) :
    ∀ c ∈ leftPad k cs, c.isDigit = true := by
  intro c hc
  rcases List.mem_append.mp hc with hm | hm
  · rw [List.eq_of_mem_replicate hm]
    decide
  · exact h c hm

theorem natChars_length_le (n k : ℕ) (h : n < 10 ^ k) : (natChars n).length ≤ k := by
  rcases Nat.eq_zero_or_pos n with rfl | hn
  · simp [natChars]
  · have hlog := Nat.log_lt_of_lt_pow (Nat.pos_iff_ne_zero.mp hn) h
    rw [natChars, List.length_reverse, List.length_map,
      Nat.digits_len 10 n (by norm_num) (by omega)]
    omega

theorem leftPad_length (k : ℕ) (cs : List Char) (h : cs.length ≤ k) :
    (leftPad k cs).length = k := by
  simp only [leftPad, List.length_append, List.length_replicate]
  omega

theorem takeWhile_app (p : Char → Bool) (A B : List Char) (hA : ∀ c ∈ A, p c = true) :
    (A ++ B).takeWhile p = A ++ B.takeWhile p ∧ (A ++ B).dropWhile p = B.dropWhile p := by
  induction A with
  | nil => simp
  | cons a A ih =>
    have ha := hA a (by simp)
    have ihh := ih fun c hc => hA c (by simp [hc])
    simp [List.takeWhile_cons, List.dropWhile_cons, ha, ihh.1, ihh.2]

theorem takeWhile_stop (p : Char → Bool) (b : Char) (B : List Char) (hb : p b = false) :
    (b :: B).takeWhile p = [] ∧ (b :: B).dropWhile p = b :: B := by
  simp [List.takeWhile_cons, List.dropWhile_cons, hb]

theorem takeWhile_all (p : Char → Bool) (A : List Char) (hA : ∀ c ∈ A, p c = true) :
    A.takeWhile p = A ∧ A.dropWhile p = [] := by
  simpa using takeWhile_app p A [] hA

theorem stripSign_no_sign (c : Char) (t : List Char) (h1 : c ≠ '-') (h2 : c ≠ '+') :
    stripSign (c :: t) = (1, c :: t) := by
  simp [stripSign, h1, h2]

theorem stripSign_digits_dot (A B : List Char) (hA : ∀ c ∈ A, c.isDigit = true) :
    stripSign (A ++ '.' :: B) = (1, A ++ '.' :: B) := by
  cases A with
  | nil => exact stripSign_no_sign '.' B (by decide) (by decide)
  | cons c t =>
    have hc := hA c (by simp)
    refine stripSign_no_sign c _ (fun h => ?_) (fun h => ?_) <;>
      · rw [h] at hc
        exact absurd hc (by decide)

/-- A divisor of a power of ten divides the power of ten with its own
exponent (its 2- and 5-exponents are below it). -/
theorem dvd_pow_ten_self (d : ℕ) (k : ℕ) (h : d ∣ 10 ^ k) : d ∣ 10 ^ d := by
  have h25 : d ∣ 2 ^ k * 5 ^ k := by
    rw [← mul_pow]
    exact_mod_cast h
  obtain ⟨d1, d2, h1, h2, rfl⟩ := exists_dvd_and_dvd_of_dvd_mul h25
  obtain ⟨a, _, rfl⟩ := (Nat.dvd_prime_pow Nat.prime_two).mp h1
  obtain ⟨b, _, rfl⟩ := (Nat.dvd_prime_pow (by norm_num)).mp h2
  have ha2 : a < 2 ^ a * 5 ^ b :=
    lt_of_lt_of_le (Nat.lt_two_pow a) (Nat.le_mul_of_pos_right _ (by positivity))
  have hb2 : b < 2 ^ a * 5 ^ b := by
    have hb5 : b < 5 ^ b :=
      lt_of_lt_of_le (Nat.lt_two_pow b) (Nat.pow_le_pow_left (by norm_num) b)
    exact lt_of_lt_of_le hb5 (Nat.le_mul_of_pos_left _ (by positivity))
  have hdvd : 2 ^ a * 5 ^ b ∣ 2 ^ (2 ^ a * 5 ^ b) * 5 ^ (2 ^ a * 5 ^ b) :=
    mul_dvd_mul (pow_dvd_pow 2 (by omega)) (pow_dvd_pow 5 (by omega))
  rwa [← mul_pow] at hdvd

/-- On a finite-decimal rational the exponent search of ratStr succeeds
with a sufficient exponent. -/
theorem ratStr_find (q : ℚ) (h : IsFiniteDecimal q) :
    ∃ k, (List.range (q.den + 1)).find? (fun k => decide (10 ^ k % (q.den : ℕ) = 0)) = some k ∧
      (q.den : ℕ) ∣ 10 ^ k := by
  obtain ⟨k0, hk0⟩ := h
  have hdpos : 0 < q.den := q.pos
  have hden : q.den ∣ 10 ^ q.den := dvd_pow_ten_self q.den k0 hk0
  have hsome : ((List.range (q.den + 1)).find? fun k =>
      decide (10 ^ k % (q.den : ℕ) = 0)).isSome = true := by
    rw [List.find?_isSome]
    exact ⟨q.den, List.mem_range.mpr (by omega),
      decide_eq_true (Nat.mod_eq_zero_of_dvd hden)⟩
  obtain ⟨k, hk⟩ := Option.isSome_iff_exists.mp hsome
  refine ⟨k, hk, ?_⟩
  have hmod := List.find?_some hk
  exact Nat.dvd_of_mod_eq_zero (of_decide_eq_true hmod)

/-- pyFloat on a rendered decimal sgn/integer-digits/point/padded-fraction
string: the denoted rational. -/
theorem pyFloat_print (s : String) (sgn : ℚ) (i f kk : ℕ) (hkk1 : 1 ≤ kk)
    (hflen : (natChars f).length ≤ kk)
    (hstrip : stripSign s.data = (sgn, natChars i ++ '.' :: leftPad kk (natChars f))) :
    pyFloat s = some (sgn * (i + (f : ℚ) / 10 ^ kk)) := by
  have hpadlen : (leftPad kk (natChars f)).length = kk := leftPad_length _ _ hflen
  have hpadne : leftPad kk (natChars f) ≠ [] := by
    intro he
    rw [he] at hpadlen
    simp at hpadlen
    omega
  have htw := takeWhile_app Char.isDigit (natChars i) ('.' :: leftPad kk (natChars f))
    (natChars_isDigit i)
  have hstop := takeWhile_stop Char.isDigit '.' (leftPad kk (natChars f)) (by decide)
  have hall := takeWhile_all Char.isDigit (leftPad kk (natChars f))
    (leftPad_isDigit kk (natChars f) (natChars_isDigit f))
  rw [pyFloat, hstrip]
  simp only [htw.1, htw.2, hstop.1, hstop.2, List.append_nil, hall.1, hall.2, if_true]
  rw [if_neg (by simp [hpadne]), natOfDigits_natChars, natOfDigits_leftPad,
    natOfDigits_natChars, hpadlen]

/-- Printing a finite-decimal rational with ratStr and reparsing with
pyFloat recovers it, and the printed form is never empty. -/
theorem pyFloat_ratStr (q : ℚ) (h : IsFiniteDecimal q) :
    ratStr q ≠ "" ∧ pyFloat (ratStr q) = some q := by
  obtain ⟨k, hfind, hdvd⟩ := ratStr_find q h
  have hdenpos : (0 : ℤ) < (q.den : ℤ) := by exact_mod_cast q.pos
  have hdvd10 : (q.den : ℤ) ∣ (10 : ℤ) ^ k := by exact_mod_cast hdvd
  have hdvdz : (q.den : ℤ) ∣ q.num * (10 : ℤ) ^ k := Dvd.dvd.mul_left hdvd10 q.num
  have hexact : (q.den : ℤ) * (q.num * (10 : ℤ) ^ k / (q.den : ℤ)) = q.num * (10 : ℤ) ^ k :=
    Int.mul_ediv_cancel' hdvdz
  set n : ℤ := q.num * (10 : ℤ) ^ k / (q.den : ℤ) with hn
  set i : ℕ := n.natAbs / 10 ^ k with hi
  set f : ℕ := n.natAbs % 10 ^ k with hf
  set kk : ℕ := max k 1 with hkk
  have hq10 : (n : ℚ) = q * 10 ^ k := by
    have hc := congrArg (fun z : ℤ => (z : ℚ)) hexact
    push_cast at hc
    have hdq : (q.den : ℚ) ≠ 0 := by positivity
    rw [← Rat.num_div_den q]
    field_simp
    linarith [hc]
  have hflen : (natChars f).length ≤ kk := by
    apply natChars_length_le
    calc f < 10 ^ k := Nat.mod_lt _ (by positivity)
    _ ≤ 10 ^ kk := Nat.pow_le_pow_right (by norm_num) (le_max_left k 1)
  have hval : (i : ℚ) + (f : ℚ) / 10 ^ kk = (n.natAbs : ℚ) / 10 ^ k := by
    rcases Nat.eq_zero_or_pos k with rfl | hkpos
    · simp [hi, hf, Nat.mod_one]
    · have hkkk : kk = k := max_eq_left hkpos
      have hsum : 10 ^ k * i + f = n.natAbs := Nat.div_add_mod _ _
      have hsum2 : i * 10 ^ k + f = n.natAbs := by rw [mul_comm] at hsum; exact hsum
      rw [hkkk]
      have h10 : ((10 : ℚ)) ^ k ≠ 0 := by positivity
      rw [eq_div_iff h10, add_mul, div_mul_cancel₀ _ h10]
      exact_mod_cast hsum2
  have hq' : q = (n : ℚ) / 10 ^ k := by
    rw [hq10]
    field_simp
  rcases lt_or_le q.num 0 with hneg | hpos
  · have hnum10 : q.num * (10 : ℤ) ^ k < 0 := mul_neg_of_neg_of_pos hneg (by positivity)
    have hnneg : n < 0 := by
      by_contra hge
      push_neg at hge
      have hnn : 0 ≤ (q.den : ℤ) * n := mul_nonneg hdenpos.le hge
      rw [hexact] at hnn
      omega
    have habsq : ((n.natAbs : ℚ)) = -(n : ℚ) := by
      rw [Int.cast_natAbs, abs_of_neg hnneg]
      push_cast
      ring
    have hs : (ratStr q).data = '-' :: (natChars i ++ '.' :: leftPad kk (natChars f)) := by
      rw [ratStr, hfind, if_pos hneg]
      simp
    have hstrip : stripSign (ratStr q).data =
        (-1, natChars i ++ '.' :: leftPad kk (natChars f)) := by
      rw [hs]
      simp [stripSign]
    refine ⟨fun he => by rw [he] at hs; exact absurd hs (by simp), ?_⟩
    rw [pyFloat_print (ratStr q) (-1) i f kk (le_max_right k 1) hflen hstrip, hval, habsq, hq']
    congr 1
    ring
  · have hn0 : 0 ≤ n := by
      by_contra h'
      push_neg at h'
      have hlt : (q.den : ℤ) * n < 0 := mul_neg_of_pos_of_neg hdenpos h'
      rw [hexact] at hlt
      have hge : 0 ≤ q.num * (10 : ℤ) ^ k := mul_nonneg hpos (by positivity)
      omega
    have habsq : ((n.natAbs : ℚ)) = (n : ℚ) := by
      rw [Int.cast_natAbs, abs_of_nonneg hn0]
    have hs : (ratStr q).data = natChars i ++ '.' :: leftPad kk (natChars f) := by
      rw [ratStr, hfind, if_neg (not_lt.mpr hpos)]
      simp
    have hstrip : stripSign (ratStr q).data =
        (1, natChars i ++ '.' :: leftPad kk (natChars f)) := by
      rw [hs]
      exact stripSign_digits_dot _ _ (natChars_isDigit i)
    have hne : (ratStr q) ≠ "" := by
      intro he
      rw [he] at hs
      have : ([] : List Char) = natChars i ++ '.' :: leftPad kk (natChars f) := hs
      exact absurd this.symm (by simp)
    refine ⟨hne, ?_⟩
    rw [pyFloat_print (ratStr q) 1 i f kk (le_max_right k 1) hflen hstrip, hval, habsq, hq']
    rw [one_mul]

theorem mk_data (s : String) : String.mk s.data = s := rfl

theorem data_nil (s : String) (h : s.data = []) : s = "" := by
  rw [← mk_data s, h]

theorem splitRow_nil (cur : List Char) (st : CsvState) : splitRow cur st [] = [String.mk cur] :=
  rfl

theorem splitRow_q_qq (cur t : List Char) :
    splitRow cur .quoted ('"' :: '"' :: t) = splitRow (cur ++ ['"']) .quoted t := rfl

theorem splitRow_q_close_comma (cur t : List Char) :
    splitRow cur .quoted ('"' :: ',' :: t) = String.mk cur :: splitRow [] .fieldStart t := rfl

theorem splitRow_q_close_end (cur : List Char) :
    splitRow cur .quoted ['"'] = [String.mk cur] := rfl

theorem splitRow_q_other (cur t : List Char) (c : Char) (hc : c ≠ '"') :
    splitRow cur .quoted (c :: t) = splitRow (cur ++ [c]) .quoted t := by
  rw [splitRow.eq_def]
  simp [hc]

theorem splitRow_u_comma (cur t : List Char) :
    splitRow cur .unquoted (',' :: t) = String.mk cur :: splitRow [] .fieldStart t := rfl

theorem splitRow_u_other (cur t : List Char) (c : Char) (hc : c ≠ ',') :
    splitRow cur .unquoted (c :: t) = splitRow (cur ++ [c]) .unquoted t := by
  rw [splitRow.eq_def]
  simp [hc]

theorem splitRow_s_quote (cur t : List Char) :
    splitRow cur .fieldStart ('"' :: t) = splitRow cur .quoted t := rfl

theorem splitRow_s_comma (cur t : List Char) :
    splitRow cur .fieldStart (',' :: t) = String.mk cur :: splitRow [] .fieldStart t := rfl

theorem splitRow_s_other (cur t : List Char) (c : Char) (h1 : c ≠ '"') (h2 : c ≠ ',') :
    splitRow cur .fieldStart (c :: t) = splitRow (cur ++ [c]) .unquoted t := by
  rw [splitRow.eq_def]
  simp [h1, h2]

/-- The quoted-field scanner consumes an escaped body up to a closing
quote at the end of the input. -/
theorem splitRow_quoted_end (f : List Char) : ∀ cur : List Char,
    splitRow cur .quoted (escQ f ++ ['"']) = [String.mk (cur ++ f)] := by
  induction f with
  | nil =>
    intro cur
    simp [escQ, splitRow_q_close_end]
  | cons c t ih =>
    intro cur
    by_cases hc : c = '"'
    · subst hc
      rw [escQ, if_pos rfl, List.cons_append, List.cons_append, splitRow_q_qq, ih]
      simp
    · rw [escQ, if_neg hc, List.cons_append, splitRow_q_other _ _ c hc, ih]
      simp

/-- The quoted-field scanner consumes an escaped body, a closing quote and
a delimiter, and resumes at field start. -/
theorem splitRow_quoted_comma (f : List Char) : ∀ cur rest : List Char,
    splitRow cur .quoted (escQ f ++ '"' :: ',' :: rest) =
      String.mk (cur ++ f) :: splitRow [] .fieldStart rest := by
  induction f with
  | nil =>
    intro cur rest
    simp [escQ, splitRow_q_close_comma]
  | cons c t ih =>
    intro cur rest
    by_cases hc : c = '"'
    · subst hc
      rw [escQ, if_pos rfl, List.cons_append, List.cons_append, splitRow_q_qq, ih]
      simp
    · rw [escQ, if_neg hc, List.cons_append, splitRow_q_other _ _ c hc, ih]
      simp

/-- The unquoted-field scanner passes over delimiter-free content. -/
theorem splitRow_unquoted_app (f : List Char) : ∀ cur rest : List Char,
    (∀ c ∈ f, c ≠ ',') →
    splitRow cur .unquoted (f ++ rest) = splitRow (cur ++ f) .unquoted rest := by
  induction f with
  | nil =>
    intro cur rest _
    simp
  | cons c t ih =>
    intro cur rest h
    rw [List.cons_append, splitRow_u_other _ _ c (h c (by simp)), ih _ _ fun x hx => h x (by simp [hx])]
    simp

theorem not_needsQuote (cs : List Char) (h : needsQuote cs = false) :
    ∀ c ∈ cs, c ≠ ',' ∧ c ≠ '"' := by
  intro c hc
  have hp := List.any_eq_false.mp h c hc
  simp only [Bool.or_eq_true, decide_eq_true_eq, not_or] at hp
  exact ⟨hp.1.1.1, hp.1.1.2⟩

theorem splitRow_unquoted_end (f cur : List Char) (h : ∀ c ∈ f, c ≠ ',') :
    splitRow cur .unquoted f = [String.mk (cur ++ f)] := by
  have happ := splitRow_unquoted_app f cur [] h
  rw [List.append_nil] at happ
  rw [happ, splitRow_nil]

/-- Parsing one written field at the end of a row recovers it. -/
theorem parse_writeField_end (f : String) :
    splitRow [] .fieldStart (writeField f).data = [f] := by
  by_cases hq : needsQuote f.data
  · rw [writeField, if_pos hq]
    show splitRow [] .fieldStart ('"' :: (escQ f.data ++ ['"'])) = [f]
    rw [splitRow_s_quote, splitRow_quoted_end, List.nil_append, mk_data]
  · rw [writeField, if_neg hq]
    have hnc := not_needsQuote f.data (by simpa using hq)
    cases hd : f.data with
    | nil =>
      rw [splitRow_nil, data_nil f hd]
    | cons c t =>
      have hc := hnc c (by rw [hd]; simp)
      rw [splitRow_s_other _ _ c hc.2 hc.1, List.nil_append,
        splitRow_unquoted_end t [c] fun x hx => (hnc x (by rw [hd]; simp [hx])).1,
        show ([c] ++ t : List Char) = f.data from by simp [hd], mk_data]

theorem writeRow_data_cons (a b : String) (rest : List String) :
    (writeRow (a :: b :: rest)).data =
      (writeField a).data ++ ',' :: (writeRow (b :: rest)).data := by
  show (writeField a ++ "," ++ writeRow (b :: rest)).data = _
  rw [String.data_append, String.data_append]
  simp

/-- Parsing a written row recovers its field list. -/
theorem parse_writeRow : ∀ fields : List String, fields ≠ [] →
    splitRow [] .fieldStart (writeRow fields).data = fields := by
  intro fields
  induction fields with
  | nil => exact fun hne => absurd rfl hne
  | cons fhd ftl ih =>
    intro _
    cases ftl with
    | nil => exact parse_writeField_end fhd
    | cons f2 ftl2 =>
      rw [writeRow_data_cons]
      by_cases hq : needsQuote fhd.data
      · rw [writeField, if_pos hq]
        show splitRow [] .fieldStart
          (('"' :: (escQ fhd.data ++ ['"'])) ++ ',' :: (writeRow (f2 :: ftl2)).data) = _
        rw [List.cons_append, splitRow_s_quote, List.append_assoc,
          show (['"'] ++ ',' :: (writeRow (f2 :: ftl2)).data : List Char) =
            '"' :: ',' :: (writeRow (f2 :: ftl2)).data from rfl,
          splitRow_quoted_comma, List.nil_append, mk_data, ih (by simp)]
      · rw [writeField, if_neg hq]
        have hnc := not_needsQuote fhd.data (by simpa using hq)
        cases hd : fhd.data with
        | nil =>
          rw [List.nil_append, splitRow_s_comma, ih (by simp), data_nil fhd hd]
        | cons c t =>
          have hc := hnc c (by rw [hd]; simp)
          rw [List.cons_append, splitRow_s_other _ _ c hc.2 hc.1, List.nil_append,
            splitRow_unquoted_app t [c] (',' :: (writeRow (f2 :: ftl2)).data)
              (fun x hx => (hnc x (by rw [hd]; simp [hx])).1),
            splitRow_u_comma, ih (by simp),
            show ([c] ++ t : List Char) = fhd.data from by simp [hd], mk_data]

/-- parseRow on a written row of at least two fields. -/
theorem parseRow_writeRow (a b : String) (rest : List String) :
    parseRow (writeRow (a :: b :: rest)) = a :: b :: rest := by
  rw [parseRow, if_neg (by rw [writeRow_data_cons]; simp)]
  exact parse_writeRow _ (by simp)

/-- from_csv_row on the exact field list recordRow writes. -/
theorem from_csv_row_fields (r : WiGLERecord) (hlat : IsFiniteDecimal r.latitude)
    (hlon : IsFiniteDecimal r.longitude) :
    from_csv_row [r.mac, r.ssid, r.auth_mode, r.first_seen, r.channel, r.rssi,
      ratStr r.latitude, ratStr r.longitude, r.altitude, r.accuracy, r.network_type] =
      some r := by
  obtain ⟨hne6, hp6⟩ := pyFloat_ratStr r.latitude hlat
  obtain ⟨hne7, hp7⟩ := pyFloat_ratStr r.longitude hlon
  have h6 : parseCoord (ratStr r.latitude) = some r.latitude := by
    rw [parseCoord, if_neg hne6, hp6]
  have h7 : parseCoord (ratStr r.longitude) = some r.longitude := by
    rw [parseCoord, if_neg hne7, hp7]
  rw [from_csv_row, if_neg (by norm_num)]
  simp only [List.getD_cons_succ, List.getD_cons_zero]
  rw [h6, h7]
  rfl

/-- The parsed body of a written file is the original record list. -/
theorem read_rows : ∀ records : List WiGLERecord,
    (∀ r ∈ records, IsFiniteDecimal r.latitude ∧ IsFiniteDecimal r.longitude) →
    (((records.map recordRow).map parseRow).filterMap fun row =>
      if row.length < 11 then none else from_csv_row row) = records := by
  intro records
  induction records with
  | nil => exact fun _ => rfl
  | cons r rs ih =>
    intro h
    obtain ⟨hlat, hlon⟩ := h r (by simp)
    have hrow : parseRow (recordRow r) = [r.mac, r.ssid, r.auth_mode, r.first_seen, r.channel,
        r.rssi, ratStr r.latitude, ratStr r.longitude, r.altitude, r.accuracy,
        r.network_type] := parseRow_writeRow _ _ _
    simp only [List.map_cons, List.filterMap_cons, hrow]
    rw [if_neg (by norm_num), from_csv_row_fields r hlat hlon,
      ih fun x hx => h x (by simp [hx])]

/-- C6: CSV round-trip: writing any record list with the CSV writer (two
header lines, then one row per record in the fixed field order) and
re-parsing the written rows with the record parser yields records whose
mac, ssid, auth mode, latitude and longitude equal those of the
originals, in order. The coordinates carry the finite-decimal hypothesis
every Python float satisfies. -/
theorem csv_round_trip (records : List WiGLERecord)
    (h : ∀ r ∈ records, IsFiniteDecimal r.latitude ∧ IsFiniteDecimal r.longitude) :
    (read_csv_file (write_csv_file records)).map keyFields = records.map keyFields := by
  rw [read_csv_file, write_csv_file]
  have hds : dataStart (headerLine1 :: headerLine2 :: records.map recordRow) = 2 := by
    rw [dataStart, dataStartAux, if_neg (by decide), dataStartAux, if_pos (by decide)]
  rw [hds, show (headerLine1 :: headerLine2 :: records.map recordRow).drop 2 =
    records.map recordRow from rfl, read_rows records h]

theorem csv_round_trip_witness :
    (∀ r ∈ [recC6], IsFiniteDecimal r.latitude ∧ IsFiniteDecimal r.longitude) ∧
    (read_csv_file (write_csv_file [recC6])).map keyFields = [recC6].map keyFields := by
  have h : ∀ r ∈ [recC6], IsFiniteDecimal r.latitude ∧ IsFiniteDecimal r.longitude := by
    intro r hr
    simp only [List.mem_singleton] at hr
    subst hr
    exact ⟨⟨0, by norm_num [recC6]⟩, ⟨0, by norm_num [recC6]⟩⟩
  exact ⟨h, csv_round_trip [recC6] h⟩

end Wigle
